import Mathlib

/-!
# Version and package resolution of the `g` toolchain manager

A shallow embedding of `src/version/version.go`: the `Version` / `Package` data
model, the lookups `FindVersion`, `FindPackage`, `FindPackages`, the two download
paths and `VerifyChecksum`, followed by the properties proved about them.

Conventions of the embedding

* A Go `string` is a sequence of bytes: `GoString := List Nat`, every element of a
  real string being below 256.
* A Go pointer `*T` is an `Option T`; `none` is the nil pointer.
* A Go slice `[]T` is a `List T`; the nil slice is the empty list.
* A value of the Go interface `error` is a term of the type `error`; `error.nil`
  is the nil interface value.
* Multiple return values are a pair.
* A function that may dereference a nil pointer returns an `Option`; `none` is
  the run-time panic.
-/

namespace G

/-! ## Strings -/

/-- A Go string: its bytes in order. -/
abbrev GoString := List Nat

/-- The bytes of a string literal made of ASCII characters. -/
def ascii (s : String) : GoString := s.toList.map Char.toNat

/-- Go standard library, `strings.HasPrefix(s, prefix)`:
`len(s) >= len(prefix) && s[:len(prefix)] == prefix`. -/
def HasPrefix (s pfx : GoString) : Bool :=
  decide (s.length ≥ pfx.length) && decide (s.take pfx.length = pfx)

/-- The value `utf8.RuneSelf`: bytes below it are single-byte runes. -/
def RuneSelf : Nat := 0x80

/-- The value `utf8.RuneError`, the replacement rune U+FFFD. -/
def RuneError : Nat := 0xFFFD

/-- The width, in bytes, that the table `first` of package `utf8` gives to a
leading byte in `0xC2`..`0xF4`. -/
def firstSize (s0 : Nat) : Nat :=
  if s0 < 0xE0 then 2 else if s0 < 0xF0 then 3 else 4

/-- The lower bound of the second byte after the leading byte `s0`: the field `lo`
of the `acceptRanges` entry that `first` selects. -/
def acceptLo (s0 : Nat) : Nat :=
  if s0 = 0xE0 then 0xA0 else if s0 = 0xF0 then 0x90 else 0x80

/-- The upper bound of the second byte after the leading byte `s0`: the field `hi`
of the `acceptRanges` entry that `first` selects. -/
def acceptHi (s0 : Nat) : Nat :=
  if s0 = 0xED then 0x9F else if s0 = 0xF4 then 0x8F else 0xBF

/-- Go standard library, `utf8.DecodeRuneInString`: the first rune of `s` and its
width in bytes; an invalid or truncated encoding yields `(RuneError, 1)` and the
empty string `(RuneError, 0)`. -/
def DecodeRuneInString (s : GoString) : Nat × Nat :=
  match s with
  | [] => (RuneError, 0)
  | s0 :: _ =>
    if s0 < RuneSelf then (s0, 1)
    else if s0 < 0xC2 ∨ 0xF4 < s0 then (RuneError, 1)
    else if s.length < firstSize s0 then (RuneError, 1)
    else if s.getD 1 0 < acceptLo s0 ∨ acceptHi s0 < s.getD 1 0 then (RuneError, 1)
    else if firstSize s0 ≤ 2 then ((s0 % 0x20) * 0x40 + s.getD 1 0 % 0x40, 2)
    else if s.getD 2 0 < 0x80 ∨ 0xBF < s.getD 2 0 then (RuneError, 1)
    else if firstSize s0 ≤ 3 then
      ((s0 % 0x10) * 0x1000 + (s.getD 1 0 % 0x40) * 0x40 + s.getD 2 0 % 0x40, 3)
    else if s.getD 3 0 < 0x80 ∨ 0xBF < s.getD 3 0 then (RuneError, 1)
    else ((s0 % 0x08) * 0x40000 + (s.getD 1 0 % 0x40) * 0x1000 + (s.getD 2 0 % 0x40) * 0x40
            + s.getD 3 0 % 0x40, 4)

/-- One step of `strings.EqualFold`: extract the first rune of a non-empty string,
`if s[0] < utf8.RuneSelf { sr, s = rune(s[0]), s[1:] } else
 { r, size := utf8.DecodeRuneInString(s); sr, s = r, s[size:] }`. -/
def firstRune (s : GoString) : Nat × GoString :=
  if s.headD 0 < RuneSelf then (s.headD 0, s.drop 1)
  else ((DecodeRuneInString s).1, s.drop (DecodeRuneInString s).2)

/-- The comparison of two runes inside `strings.EqualFold`.  The last case of the
Go code walks the orbit of `unicode.SimpleFold`, whose tables belong to the Go
distribution; its outcome (`r == tr` after the walk from `sr`) is the parameter
`orbit sr tr`, consulted only for `sr < tr` with `tr` outside ASCII. -/
def runesFoldEqual (orbit : Nat → Nat → Bool) (sr tr : Nat) : Bool :=
  if tr = sr then true
  else
    let lo := if tr < sr then tr else sr
    let hi := if tr < sr then sr else tr
    if hi < RuneSelf then
      decide (0x41 ≤ lo) && decide (lo ≤ 0x5A) && decide (hi = lo + 0x61 - 0x41)
    else orbit lo hi

/-- The loop of `strings.EqualFold`, `for s != "" && t != "" { ... }; return s == t`,
with the number of remaining iterations as first argument. -/
def EqualFoldLoop (orbit : Nat → Nat → Bool) : Nat → GoString → GoString → Bool
  | 0, s, t => decide (s = t)
  | fuel + 1, s, t =>
    if s = [] ∨ t = [] then decide (s = t)
    else if runesFoldEqual orbit (firstRune s).1 (firstRune t).1 then
      EqualFoldLoop orbit fuel (firstRune s).2 (firstRune t).2
    else false

/-- Go standard library, `strings.EqualFold(s, t)`: equality of `s` and `t`, read as
UTF-8, under simple Unicode case folding.  Every iteration consumes at least one
byte of `s`, so `len(s)` iterations suffice. -/
def EqualFold (orbit : Nat → Nat → Bool) (s t : GoString) : Bool :=
  EqualFoldLoop orbit s.length s t

/-- Go standard library, `fmt.Sprintf("go%s.%s-%s", name, goos, goarch)`: the three
strings in the fixed frame `go`, `.`, `-`. -/
def Sprintf_go (name goos goarch : GoString) : GoString :=
  ascii "go" ++ name ++ ascii "." ++ goos ++ ascii "-" ++ goarch

/-! ## Data model -/

/-- The struct `Package`. -/
structure Package where
  FileName : GoString
  URL : GoString
  Kind : GoString
  OS : GoString
  Arch : GoString
  Size : GoString
  Checksum : GoString
  Algorithm : GoString
  deriving DecidableEq, Repr

/-- The struct `Version`; `Packages` is a `[]*Package`, so an entry may be nil. -/
structure Version where
  Name : GoString
  Packages : List (Option Package)
  deriving DecidableEq, Repr

/-- Values of the Go interface `error` that the package produces or passes on.
`external c` stands for an error made by `net/http`, `os` or `io`. -/
inductive error where
  | nil
  | ErrVersionNotFound
  | ErrPackageNotFound
  | ErrUnsupportedChecksumAlgorithm
  | ErrChecksumNotMatched
  | DownloadError (url : GoString) (err : error)
  | external (code : Nat)
  deriving DecidableEq, Repr

/-- The constructor `NewDownloadError`: `&DownloadError{url: url, err: err}`. -/
def NewDownloadError (url : GoString) (err : error) : error :=
  error.DownloadError url err

/-- The constant `SourceKind`. -/
def SourceKind : GoString := ascii "Source"
/-- The constant `ArchiveKind`. -/
def ArchiveKind : GoString := ascii "Archive"
/-- The constant `InstallerKind`. -/
def InstallerKind : GoString := ascii "Installer"

/-! ## Lookups -/

/-- The function `FindVersion`.  `all[i].Name` dereferences `all[i]` unguarded, so
a nil entry reached by the loop panics (`none`). -/
def FindVersion : List (Option Version) → GoString → Option (Option Version × error)
  | [], _ => some (none, error.ErrVersionNotFound)
  | p :: rest, name =>
    match p with
    | none => none
    | some v => if v.Name = name then some (some v, error.nil) else FindVersion rest name

/-- The test that makes the loops of `FindPackage` and `FindPackages` `continue`:
`p == nil || !strings.EqualFold(p.Kind, kind) || !strings.HasPrefix(p.FileName, prefix)`.
`||` evaluates its right operand only when the left one is false; reading a field
of a nil `p` is the panic `none`. -/
def skipEntry (orbit : Nat → Nat → Bool) (kind pfx : GoString) (p : Option Package) :
    Option Bool :=
  if p.isNone then some true
  else do
    let k ← p.map Package.Kind
    if !EqualFold orbit k kind then some true
    else do
      let f ← p.map Package.FileName
      some (!HasPrefix f pfx)

/-- The loop of `FindPackage` over the entries not yet visited, and the final
`return nil, ErrPackageNotFound`. -/
def FindPackageLoop (orbit : Nat → Nat → Bool) (kind pfx : GoString) :
    List (Option Package) → Option (Option Package × error)
  | [] => some (none, error.ErrPackageNotFound)
  | p :: rest =>
    match skipEntry orbit kind pfx p with
    | none => none
    | some true => FindPackageLoop orbit kind pfx rest
    | some false => some (p, error.nil)

/-- The method `Version.FindPackage`, for a non-nil receiver. -/
def FindPackage (orbit : Nat → Nat → Bool) (v : Version) (kind goos goarch : GoString) :
    Option (Option Package × error) :=
  FindPackageLoop orbit kind (Sprintf_go v.Name goos goarch) v.Packages

/-- The loop of `FindPackages`: the entries not yet visited and the slice `pkgs`
built so far; `pkgs = append(pkgs, p)` for every entry that is not skipped. -/
def FindPackagesLoop (orbit : Nat → Nat → Bool) (kind pfx : GoString) :
    List (Option Package) → List (Option Package) → Option (List (Option Package))
  | [], pkgs => some pkgs
  | p :: rest, pkgs =>
    match skipEntry orbit kind pfx p with
    | none => none
    | some true => FindPackagesLoop orbit kind pfx rest pkgs
    | some false => FindPackagesLoop orbit kind pfx rest (pkgs ++ [p])

/-- The method `Version.FindPackages`, for a non-nil receiver. -/
def FindPackages (orbit : Nat → Nat → Bool) (v : Version) (kind goos goarch : GoString) :
    Option (List (Option Package) × error) :=
  match FindPackagesLoop orbit kind (Sprintf_go v.Name goos goarch) v.Packages [] with
  | none => none
  | some pkgs =>
    if pkgs.length = 0 then some ([], error.ErrPackageNotFound)
    else some (pkgs, error.nil)

/-! ## Transport and checksum

Network, file system and digests are outside the repository.  `World` holds what
they answer; the code of `version.go` is embedded over an arbitrary `World`. -/

/-- The fields of `http.Response` the code reads; `Body` names the stream. -/
structure Response where
  Body : Nat
  ContentLength : Int
  deriving DecidableEq, Repr

/-- The destination handed to `io.Copy` by the two download paths: the file `f`,
or `io.MultiWriter(f, bar)` with `bar` a progress bar of maximum `max`. -/
inductive Writer where
  | file (f : Nat)
  | multi (f : Nat) (max : Int)
  deriving DecidableEq, Repr

/-- The answers of the standard library.  A call returning `(x, err)` in Go is a
function into a pair; `err` is `error.nil` on success. -/
structure World where
  /-- The call `http.Get(url)`. -/
  httpGet : GoString → Response × error
  /-- The call `os.Create(dst)`; the first component names the file. -/
  osCreate : GoString → Nat × error
  /-- The call `os.OpenFile(dst, os.O_CREATE|os.O_WRONLY, 0644)`. -/
  osOpenFile : GoString → Nat × error
  /-- The call `os.Open(filename)`. -/
  osOpen : GoString → Nat × error
  /-- The call `io.Copy(dst, body)`: the bytes written and the error. -/
  ioCopy : Writer → Nat → Int × error
  /-- The call `io.Copy(h, f)` into a hash: the bytes of `f` handed to `h`, and
  the error. -/
  ioCopyHash : Nat → List Nat × error
  /-- The digest `sha256.New()` returns from `Sum(nil)` after the given bytes. -/
  sha256 : List Nat → List Nat
  /-- The digest `sha1.New()` returns from `Sum(nil)` after the given bytes. -/
  sha1 : List Nat → List Nat

/-- The method `Package.Download`, for a non-nil receiver. -/
def Download (w : World) (pkg : Package) (dst : GoString) : Int × error :=
  let resp := (w.httpGet pkg.URL).1
  let err := (w.httpGet pkg.URL).2
  if err ≠ error.nil then (0, NewDownloadError pkg.URL err)
  else
    let f := (w.osCreate dst).1
    let err := (w.osCreate dst).2
    if err ≠ error.nil then (0, NewDownloadError pkg.URL err)
    else
      let size := (w.ioCopy (Writer.file f) resp.Body).1
      let err := (w.ioCopy (Writer.file f) resp.Body).2
      if err ≠ error.nil then (0, NewDownloadError pkg.URL err)
      else (size, error.nil)

/-- The method `Package.DownloadWithProgress`, for a non-nil receiver.  The
progress bar is made from `resp.ContentLength`; what it prints is not modelled. -/
def DownloadWithProgress (w : World) (pkg : Package) (dst : GoString) : Int × error :=
  let resp := (w.httpGet pkg.URL).1
  let err := (w.httpGet pkg.URL).2
  if err ≠ error.nil then (0, NewDownloadError pkg.URL err)
  else
    let f := (w.osOpenFile dst).1
    let err := (w.osOpenFile dst).2
    if err ≠ error.nil then (0, NewDownloadError pkg.URL err)
    else
      let size := (w.ioCopy (Writer.multi f resp.ContentLength) resp.Body).1
      let err := (w.ioCopy (Writer.multi f resp.ContentLength) resp.Body).2
      if err ≠ error.nil then (size, NewDownloadError pkg.URL err)
      else (size, error.nil)

/-- The constant `SHA256`. -/
def SHA256 : GoString := ascii "SHA256"
/-- The constant `SHA1`. -/
def SHA1 : GoString := ascii "SHA1"

/-- One lowercase hexadecimal digit, as a byte: `0`..`9`, `a`..`f`. -/
def hexDigit (n : Nat) : Nat := if n < 10 then 0x30 + n else 0x61 + (n - 10)

/-- Go standard library, `fmt.Sprintf("%x", b)` for a byte slice `b`: two lowercase
hexadecimal digits for every byte, high nibble first. -/
def Sprintf_x (b : List Nat) : GoString :=
  b.flatMap fun x => [hexDigit (x / 16 % 16), hexDigit (x % 16)]

/-- The method `Package.VerifyChecksum`, for a non-nil receiver.  The file is
opened first; the `switch` on `pkg.Algorithm` follows, then the copy into the
hash and the comparison with `pkg.Checksum`. -/
def VerifyChecksum (w : World) (pkg : Package) (filename : GoString) : error :=
  let f := (w.osOpen filename).1
  let err := (w.osOpen filename).2
  if err ≠ error.nil then err
  else
    let h : Option (List Nat → List Nat) :=
      if pkg.Algorithm = SHA256 then some w.sha256
      else if pkg.Algorithm = SHA1 then some w.sha1
      else none
    match h with
    | none => error.ErrUnsupportedChecksumAlgorithm
    | some h =>
      let err := (w.ioCopyHash f).2
      if err ≠ error.nil then err
      else if pkg.Checksum ≠ Sprintf_x (h (w.ioCopyHash f).1) then error.ErrChecksumNotMatched
      else error.nil

/-! ## The reading of a query used in the statements -/

/-- An entry has the shape a query asks for: it is not nil, its `Kind` equals
`kind` under case folding and its `FileName` starts with
`"go" + name + "." + goos + "-" + goarch`. -/
def hasShape (orbit : Nat → Nat → Bool) (name kind goos goarch : GoString)
    (e : Option Package) : Bool :=
  match e with
  | none => false
  | some p => EqualFold orbit p.Kind kind && HasPrefix p.FileName (Sprintf_go name goos goarch)

/-- The Version obtained by deleting every nil entry of `Packages`. -/
def dropNil (v : Version) : Version :=
  { v with Packages := v.Packages.filter Option.isSome }

/-- Two bytes are equal up to the case of an ASCII letter. -/
def sameLetter (a b : Nat) : Bool :=
  a == b || (decide (0x41 ≤ a) && decide (a ≤ 0x5A) && b == a + 0x20)
    || (decide (0x41 ≤ b) && decide (b ≤ 0x5A) && a == b + 0x20)

/-- Two strings are equal up to the case of their ASCII letters: same length, and
byte by byte equal or the two cases of one letter. -/
def eqUpToCase : GoString → GoString → Bool
  | [], [] => true
  | a :: s, b :: t => sameLetter a b && eqUpToCase s t
  | _, _ => false

/-! ## Sample data used by the concrete instances -/

/-- The orbit parameter that relates no two runes; it is consulted only for runes
outside ASCII. -/
def noOrbit : Nat → Nat → Bool := fun _ _ => false

/-- A package of kind `Archive` with the given file name, os and arch. -/
def samplePackage (fileName os arch : String) : Package :=
  { FileName := ascii fileName, URL := ascii "https://dl.example/" ++ ascii fileName,
    Kind := ArchiveKind, OS := ascii os, Arch := ascii arch, Size := ascii "64MB",
    Checksum := [], Algorithm := SHA256 }

/-- The archive of release 1.21.0 for linux/amd64. -/
def pkgLinuxAmd64 : Package := samplePackage "go1.21.0.linux-amd64.tar.gz" "linux" "amd64"

/-- The archive of release 1.21.0 for linux/arm64. -/
def pkgLinuxArm64 : Package := samplePackage "go1.21.0.linux-arm64.tar.gz" "linux" "arm64"

/-- A second archive of release 1.21.0 for linux/amd64, under another extension. -/
def pkgLinuxAmd64Zip : Package := samplePackage "go1.21.0.linux-amd64.zip" "linux" "amd64"

/-- Release 1.21.0 with a nil entry followed by three packages. -/
def sampleVersion : Version :=
  { Name := ascii "1.21.0",
    Packages := [none, some pkgLinuxArm64, some pkgLinuxAmd64, none, some pkgLinuxAmd64Zip] }

/-- Release 1.21.0 with the linux/amd64 archive as its only package. -/
def singleVersion : Version :=
  { Name := ascii "1.21.0", Packages := [some pkgLinuxAmd64] }

/-- Release 1.20.5, without packages. -/
def version1205 : Version := { Name := ascii "1.20.5", Packages := [] }

/-- A world in which the request and both ways of opening the destination succeed
and every copy breaks after 5 bytes; `os.Open` finds no file. -/
def brokenCopyWorld : World :=
  { httpGet := fun _ => ({ Body := 1, ContentLength := 100 }, error.nil)
    osCreate := fun _ => (3, error.nil)
    osOpenFile := fun _ => (3, error.nil)
    osOpen := fun _ => (0, error.external 2)
    ioCopy := fun _ _ => (5, error.external 104)
    ioCopyHash := fun _ => ([], error.nil)
    sha256 := fun _ => []
    sha1 := fun _ => [] }

/-- A world in which every file opens and reads as the two bytes `hi`; the two
digest functions are short stand-ins for SHA-256 and SHA-1. -/
def readableWorld : World :=
  { httpGet := fun _ => ({ Body := 1, ContentLength := 2 }, error.nil)
    osCreate := fun _ => (3, error.nil)
    osOpenFile := fun _ => (3, error.nil)
    osOpen := fun _ => (7, error.nil)
    ioCopy := fun _ _ => (2, error.nil)
    ioCopyHash := fun _ => ([0x68, 0x69], error.nil)
    sha256 := fun b => [b.sum % 256, b.length % 256]
    sha1 := fun b => [b.length % 256] }

/-- A `SHA256` package whose checksum is the hex digest `d102` of `readableWorld`. -/
def goodPackage : Package :=
  { pkgLinuxAmd64 with Checksum := ascii "d102" }

/-- A package whose `Algorithm` is `MD5`. -/
def md5Package : Package :=
  { pkgLinuxAmd64 with Algorithm := ascii "MD5" }

/-- The archive `go1.21.0.linux-musl-amd64.tar.gz`: os `linux-musl`, arch `amd64`. -/
def pkgLinuxMuslAmd64 : Package := samplePackage "go1.21.0.linux-musl-amd64.tar.gz" "linux-musl"
  "amd64"

/-! ## Lemmas on the two loops -/

theorem skipEntry_eq (orbit : Nat → Nat → Bool) (name kind goos goarch : GoString)
    (e : Option Package) :
    skipEntry orbit kind (Sprintf_go name goos goarch) e
      = some (!hasShape orbit name kind goos goarch e) := by
  cases e with
  | none => simp [skipEntry, hasShape]
  | some p =>
    cases h : EqualFold orbit p.Kind kind <;> simp [skipEntry, hasShape, h]

theorem FindPackageLoop_cons (orbit : Nat → Nat → Bool) (name kind goos goarch : GoString)
    (e : Option Package) (l : List (Option Package)) :
    FindPackageLoop orbit kind (Sprintf_go name goos goarch) (e :: l)
      = if hasShape orbit name kind goos goarch e = true then some (e, error.nil)
        else FindPackageLoop orbit kind (Sprintf_go name goos goarch) l := by
  rw [FindPackageLoop, skipEntry_eq]
  cases hasShape orbit name kind goos goarch e <;> simp

theorem FindPackageLoop_none (orbit : Nat → Nat → Bool) (name kind goos goarch : GoString)
    (l : List (Option Package))
    (h : ∀ e ∈ l, hasShape orbit name kind goos goarch e = false) :
    FindPackageLoop orbit kind (Sprintf_go name goos goarch) l
      = some (none, error.ErrPackageNotFound) := by
  induction l with
  | nil => rfl
  | cons e l ih =>
    rw [FindPackageLoop_cons, h e (List.mem_cons_self _ _)]
    simpa using ih (fun x hx => h x (List.mem_cons_of_mem _ hx))

theorem FindPackagesLoop_eq (orbit : Nat → Nat → Bool) (name kind goos goarch : GoString)
    (l pkgs : List (Option Package)) :
    FindPackagesLoop orbit kind (Sprintf_go name goos goarch) l pkgs
      = some (pkgs ++ l.filter (hasShape orbit name kind goos goarch)) := by
  induction l generalizing pkgs with
  | nil => simp [FindPackagesLoop]
  | cons e l ih =>
    rw [FindPackagesLoop, skipEntry_eq]
    cases h : hasShape orbit name kind goos goarch e <;> simp [ih, h]

theorem FindPackages_eq (orbit : Nat → Nat → Bool) (v : Version) (kind goos goarch : GoString) :
    FindPackages orbit v kind goos goarch
      = some (if v.Packages.filter (hasShape orbit v.Name kind goos goarch) = []
              then ([], error.ErrPackageNotFound)
              else (v.Packages.filter (hasShape orbit v.Name kind goos goarch), error.nil)) := by
  unfold FindPackages
  rw [FindPackagesLoop_eq]
  simp only [List.nil_append, List.length_eq_zero]
  split_ifs <;> rfl

theorem FindPackageLoop_eq_head (orbit : Nat → Nat → Bool) (name kind goos goarch : GoString)
    (l : List (Option Package)) :
    FindPackageLoop orbit kind (Sprintf_go name goos goarch) l
      = some (match l.filter (hasShape orbit name kind goos goarch) with
              | [] => (none, error.ErrPackageNotFound)
              | e :: _ => (e, error.nil)) := by
  induction l with
  | nil => rfl
  | cons a l ih =>
    rw [FindPackageLoop_cons]
    cases h : hasShape orbit name kind goos goarch a <;> simp [h, ih]

theorem hasShape_isSome (orbit : Nat → Nat → Bool) (name kind goos goarch : GoString)
    (e : Option Package) (h : hasShape orbit name kind goos goarch e = true) :
    e.isSome = true := by
  cases e with
  | none => simp [hasShape] at h
  | some p => rfl

theorem filter_hasShape_dropNil (orbit : Nat → Nat → Bool) (name kind goos goarch : GoString)
    (l : List (Option Package)) :
    (l.filter Option.isSome).filter (hasShape orbit name kind goos goarch)
      = l.filter (hasShape orbit name kind goos goarch) := by
  rw [List.filter_filter]
  apply List.filter_congr
  intro e _
  cases h : hasShape orbit name kind goos goarch e
  · simp
  · simp [hasShape_isSome orbit name kind goos goarch e h]

theorem FindPackageLoop_exists_first (orbit : Nat → Nat → Bool)
    (name kind goos goarch : GoString) (l : List (Option Package))
    (h : ∃ e ∈ l, hasShape orbit name kind goos goarch e = true) :
    ∃ (i : Nat) (p : Package), l[i]? = some (some p) ∧
      hasShape orbit name kind goos goarch (some p) = true ∧
      (∀ j : Nat, j < i → ∀ x, l[j]? = some x →
        hasShape orbit name kind goos goarch x = false) ∧
      FindPackageLoop orbit kind (Sprintf_go name goos goarch) l = some (some p, error.nil) := by
  induction l with
  | nil => simp at h
  | cons a l ih =>
    cases ha : hasShape orbit name kind goos goarch a with
    | true =>
      cases a with
      | none => simp [hasShape] at ha
      | some p =>
        refine ⟨0, p, by simp, ha, ?_, ?_⟩
        · intro j hj
          exact absurd hj (Nat.not_lt_zero j)
        · rw [FindPackageLoop_cons, ha]
          simp
    | false =>
      have h' : ∃ e ∈ l, hasShape orbit name kind goos goarch e = true := by
        obtain ⟨e, he, hs⟩ := h
        rcases List.mem_cons.mp he with rfl | he
        · rw [ha] at hs
          exact absurd hs (by decide)
        · exact ⟨e, he, hs⟩
      obtain ⟨i, p, hi, hp, hlt, hres⟩ := ih h'
      refine ⟨i + 1, p, by simpa using hi, hp, ?_, ?_⟩
      · intro j hj x hx
        cases j with
        | zero =>
          simp at hx
          subst hx
          exact ha
        | succ j => exact hlt j (Nat.lt_of_succ_lt_succ hj) x (by simpa using hx)
      · rw [FindPackageLoop_cons, ha]
        simpa using hres

/-! ## Properties of the lookups -/

/-- C1: `FindPackage` is a find-first over the stored order.  If some entry of
`v.Packages` has the queried shape (not nil, `Kind` equal to `kind` under case
folding, `FileName` starting with `"go" + v.Name + "." + goos + "-" + goarch`), the
call returns, with a nil error, the entry of that shape with the smallest index;
if no entry has the shape it returns `(nil, ErrPackageNotFound)`. -/
theorem FindPackage_find_first (orbit : Nat → Nat → Bool) (v : Version)
    (kind goos goarch : GoString) :
    ((∃ e ∈ v.Packages, hasShape orbit v.Name kind goos goarch e = true) →
      ∃ (i : Nat) (p : Package), v.Packages[i]? = some (some p) ∧
        hasShape orbit v.Name kind goos goarch (some p) = true ∧
        (∀ j : Nat, j < i → ∀ x, v.Packages[j]? = some x →
          hasShape orbit v.Name kind goos goarch x = false) ∧
        FindPackage orbit v kind goos goarch = some (some p, error.nil))
    ∧ ((∀ e ∈ v.Packages, hasShape orbit v.Name kind goos goarch e = false) →
        FindPackage orbit v kind goos goarch = some (none, error.ErrPackageNotFound)) :=
  ⟨fun h => FindPackageLoop_exists_first orbit v.Name kind goos goarch v.Packages h,
   fun h => FindPackageLoop_none orbit v.Name kind goos goarch v.Packages h⟩

/-- Instance of C1 on release 1.21.0: the query `archive`, `linux`, `amd64` has a
match, and the query `archive`, `linux`, `riscv64` has none. -/
theorem FindPackage_find_first_witness :
    ((∃ e ∈ sampleVersion.Packages,
        hasShape noOrbit sampleVersion.Name (ascii "archive") (ascii "linux") (ascii "amd64") e
          = true) ∧
      ∃ (i : Nat) (p : Package), sampleVersion.Packages[i]? = some (some p) ∧
        hasShape noOrbit sampleVersion.Name (ascii "archive") (ascii "linux") (ascii "amd64")
          (some p) = true ∧
        (∀ j : Nat, j < i → ∀ x, sampleVersion.Packages[j]? = some x →
          hasShape noOrbit sampleVersion.Name (ascii "archive") (ascii "linux") (ascii "amd64") x
            = false) ∧
        FindPackage noOrbit sampleVersion (ascii "archive") (ascii "linux") (ascii "amd64")
          = some (some p, error.nil))
    ∧ ((∀ e ∈ sampleVersion.Packages,
        hasShape noOrbit sampleVersion.Name (ascii "archive") (ascii "linux") (ascii "riscv64") e
          = false) ∧
      FindPackage noOrbit sampleVersion (ascii "archive") (ascii "linux") (ascii "riscv64")
        = some (none, error.ErrPackageNotFound)) :=
  ⟨⟨⟨some pkgLinuxAmd64, by decide, by decide⟩,
    (FindPackage_find_first noOrbit sampleVersion (ascii "archive") (ascii "linux")
      (ascii "amd64")).1 ⟨some pkgLinuxAmd64, by decide, by decide⟩⟩,
   ⟨by decide,
    (FindPackage_find_first noOrbit sampleVersion (ascii "archive") (ascii "linux")
      (ascii "riscv64")).2 (by decide)⟩⟩

/-- C2: `FindPackages` returns exactly the matching entries in their original
order.  With `M` the subsequence of `v.Packages` made of the entries of the queried
shape, the result is `(nil, ErrPackageNotFound)` when `M` is empty and `(M, nil)`
otherwise. -/
theorem FindPackages_all_matches_in_order (orbit : Nat → Nat → Bool) (v : Version)
    (kind goos goarch : GoString) :
    FindPackages orbit v kind goos goarch
      = some (if v.Packages.filter (hasShape orbit v.Name kind goos goarch) = []
              then ([], error.ErrPackageNotFound)
              else (v.Packages.filter (hasShape orbit v.Name kind goos goarch), error.nil)) :=
  FindPackages_eq orbit v kind goos goarch

/-- C5: nil entries of `v.Packages` are skipped.  Both lookups complete (no nil
dereference), return what they return on the Version with every nil entry deleted,
and never return a nil entry as a match. -/
theorem nil_entries_skipped (orbit : Nat → Nat → Bool) (v : Version)
    (kind goos goarch : GoString) :
    FindPackage orbit v kind goos goarch = FindPackage orbit (dropNil v) kind goos goarch
    ∧ FindPackages orbit v kind goos goarch = FindPackages orbit (dropNil v) kind goos goarch
    ∧ (FindPackage orbit v kind goos goarch = some (none, error.ErrPackageNotFound)
        ∨ ∃ p, FindPackage orbit v kind goos goarch = some (some p, error.nil))
    ∧ (∃ l err, FindPackages orbit v kind goos goarch = some (l, err) ∧ none ∉ l) := by
  have hnone : none ∉ v.Packages.filter (hasShape orbit v.Name kind goos goarch) := by
    intro hmem
    have := (List.mem_filter.mp hmem).2
    simp [hasShape] at this
  refine ⟨?_, ?_, ?_, ?_⟩
  · unfold FindPackage
    rw [FindPackageLoop_eq_head, FindPackageLoop_eq_head]
    simp only [dropNil, filter_hasShape_dropNil]
  · rw [FindPackages_eq, FindPackages_eq]
    simp only [dropNil, filter_hasShape_dropNil]
  · unfold FindPackage
    rw [FindPackageLoop_eq_head]
    cases hM : v.Packages.filter (hasShape orbit v.Name kind goos goarch) with
    | nil => exact Or.inl rfl
    | cons e M =>
      rw [hM] at hnone
      cases e with
      | none => exact absurd (List.mem_cons_self _ _) hnone
      | some p => exact Or.inr ⟨p, rfl⟩
  · rw [FindPackages_eq]
    by_cases hM : v.Packages.filter (hasShape orbit v.Name kind goos goarch) = []
    · exact ⟨[], error.ErrPackageNotFound, by simp [hM], by simp⟩
    · exact ⟨_, error.nil, by simp [hM], hnone⟩

/-- C10: `FindPackage` and `FindPackages` agree.  Either both return
`ErrPackageNotFound`, or both succeed and the package `FindPackage` returns is the
first element of the slice `FindPackages` returns. -/
theorem FindPackage_agrees_with_FindPackages (orbit : Nat → Nat → Bool) (v : Version)
    (kind goos goarch : GoString) :
    (FindPackage orbit v kind goos goarch = some (none, error.ErrPackageNotFound)
      ∧ FindPackages orbit v kind goos goarch = some ([], error.ErrPackageNotFound))
    ∨ ∃ p rest, FindPackage orbit v kind goos goarch = some (some p, error.nil)
        ∧ FindPackages orbit v kind goos goarch = some (some p :: rest, error.nil) := by
  have hnone : none ∉ v.Packages.filter (hasShape orbit v.Name kind goos goarch) := by
    intro hmem
    have := (List.mem_filter.mp hmem).2
    simp [hasShape] at this
  unfold FindPackage
  rw [FindPackageLoop_eq_head, FindPackages_eq]
  cases hM : v.Packages.filter (hasShape orbit v.Name kind goos goarch) with
  | nil => exact Or.inl ⟨rfl, by simp⟩
  | cons e M =>
    rw [hM] at hnone
    cases e with
    | none => exact absurd (List.mem_cons_self _ _) hnone
    | some p => exact Or.inr ⟨p, M, rfl, by simp⟩

/-- C9: `FindVersion` on a list of non-nil Versions.  If no element has `Name`
equal to `name` the result is `(nil, ErrVersionNotFound)`; otherwise it is the first
element in list order whose `Name` equals `name`, with a nil error. -/
theorem FindVersion_not_found_iff_absent (all : List (Option Version)) (name : GoString)
    (hnn : none ∉ all) :
    ((∀ v, some v ∈ all → v.Name ≠ name) →
        FindVersion all name = some (none, error.ErrVersionNotFound))
    ∧ ((∃ v, some v ∈ all ∧ v.Name = name) →
        ∃ (i : Nat) (v : Version), all[i]? = some (some v) ∧ v.Name = name ∧
          (∀ j : Nat, j < i → ∀ u, all[j]? = some (some u) → u.Name ≠ name) ∧
          FindVersion all name = some (some v, error.nil)) := by
  induction all with
  | nil =>
    refine ⟨fun _ => rfl, ?_⟩
    rintro ⟨v, hv, _⟩
    simp at hv
  | cons a all ih =>
    have hnn' : none ∉ all := fun h => hnn (List.mem_cons_of_mem _ h)
    obtain ⟨ih1, ih2⟩ := ih hnn'
    cases a with
    | none => exact absurd (List.mem_cons_self _ _) hnn
    | some w =>
      by_cases hw : w.Name = name
      · refine ⟨fun h => absurd hw (h w (List.mem_cons_self _ _)), fun _ => ?_⟩
        refine ⟨0, w, by simp, hw, ?_, by simp [FindVersion, hw]⟩
        intro j hj
        exact absurd hj (Nat.not_lt_zero j)
      · constructor
        · intro h
          simp only [FindVersion, hw, if_false]
          exact ih1 (fun v hv => h v (List.mem_cons_of_mem _ hv))
        · rintro ⟨v, hv, hvn⟩
          have hv' : some v ∈ all := by
            rcases List.mem_cons.mp hv with h | h
            · cases h
              exact absurd hvn hw
            · exact h
          obtain ⟨i, u, hi, hu, hlt, hres⟩ := ih2 ⟨v, hv', hvn⟩
          refine ⟨i + 1, u, by simpa using hi, hu, ?_, by simpa [FindVersion, hw] using hres⟩
          intro j hj x hx
          cases j with
          | zero =>
            simp at hx
            subst hx
            exact hw
          | succ j => exact hlt j (Nat.lt_of_succ_lt_succ hj) x (by simpa using hx)

/-- Instance of C9 on the list `[1.20.5, 1.21.0, 1.21.0]`: the name `1.21.0` is
found, the name `1.21` is not. -/
theorem FindVersion_not_found_iff_absent_witness :
    (none ∉ [some version1205, some singleVersion, some sampleVersion]
      ∧ FindVersion [some version1205, some singleVersion, some sampleVersion] (ascii "1.21")
          = some (none, error.ErrVersionNotFound))
    ∧ ∃ (i : Nat) (v : Version),
        [some version1205, some singleVersion, some sampleVersion][i]? = some (some v) ∧
        v.Name = ascii "1.21.0" ∧
        (∀ j : Nat, j < i → ∀ u,
          [some version1205, some singleVersion, some sampleVersion][j]? = some (some u) →
          u.Name ≠ ascii "1.21.0") ∧
        FindVersion [some version1205, some singleVersion, some sampleVersion] (ascii "1.21.0")
          = some (some v, error.nil) :=
  ⟨⟨by decide,
    (FindVersion_not_found_iff_absent [some version1205, some singleVersion, some sampleVersion]
      (ascii "1.21") (by decide)).1 (by
        intro v hv
        simp only [List.mem_cons, Option.some.injEq, List.mem_singleton, List.mem_nil_iff,
          or_false] at hv
        rcases hv with rfl | rfl | rfl <;> decide)⟩,
   (FindVersion_not_found_iff_absent [some version1205, some singleVersion, some sampleVersion]
      (ascii "1.21.0") (by decide)).2 ⟨singleVersion, by decide, by decide⟩⟩

/-! ## Properties of the two download paths -/

/-- C8: the two download paths differ in the count they return on a copy failure.
When `http.Get` fails, or the destination cannot be opened, both return size 0 and
a `DownloadError` carrying `pkg.URL` and the cause.  When the copy fails after `n`
bytes, `DownloadWithProgress` returns `n` and `Download` returns 0, each with a
`DownloadError` carrying `pkg.URL` and the cause.  When the three steps succeed,
both return the number of bytes copied and a nil error. -/
theorem download_partial_count_asymmetry (w : World) (pkg : Package) (dst : GoString) :
    ((w.httpGet pkg.URL).2 ≠ error.nil →
        Download w pkg dst = (0, error.DownloadError pkg.URL (w.httpGet pkg.URL).2)
        ∧ DownloadWithProgress w pkg dst
            = (0, error.DownloadError pkg.URL (w.httpGet pkg.URL).2))
    ∧ ((w.httpGet pkg.URL).2 = error.nil → (w.osCreate dst).2 ≠ error.nil →
        Download w pkg dst = (0, error.DownloadError pkg.URL (w.osCreate dst).2))
    ∧ ((w.httpGet pkg.URL).2 = error.nil → (w.osOpenFile dst).2 ≠ error.nil →
        DownloadWithProgress w pkg dst
          = (0, error.DownloadError pkg.URL (w.osOpenFile dst).2))
    ∧ (∀ (n : Int) (cause : error),
        (w.httpGet pkg.URL).2 = error.nil → (w.osCreate dst).2 = error.nil →
        w.ioCopy (Writer.file (w.osCreate dst).1) (w.httpGet pkg.URL).1.Body = (n, cause) →
        (cause ≠ error.nil → Download w pkg dst = (0, error.DownloadError pkg.URL cause))
        ∧ (cause = error.nil → Download w pkg dst = (n, error.nil)))
    ∧ (∀ (n : Int) (cause : error),
        (w.httpGet pkg.URL).2 = error.nil → (w.osOpenFile dst).2 = error.nil →
        w.ioCopy (Writer.multi (w.osOpenFile dst).1 (w.httpGet pkg.URL).1.ContentLength)
          (w.httpGet pkg.URL).1.Body = (n, cause) →
        (cause ≠ error.nil →
          DownloadWithProgress w pkg dst = (n, error.DownloadError pkg.URL cause))
        ∧ (cause = error.nil → DownloadWithProgress w pkg dst = (n, error.nil))) := by
  refine ⟨?_, ?_, ?_, ?_, ?_⟩
  · intro h
    simp [Download, DownloadWithProgress, NewDownloadError, h]
  · intro hg hc
    simp [Download, NewDownloadError, hg, hc]
  · intro hg hc
    simp [DownloadWithProgress, NewDownloadError, hg, hc]
  · intro n cause hg hc hcopy
    constructor
    · intro hne
      simp [Download, NewDownloadError, hg, hc, hcopy, hne]
    · intro he
      subst he
      simp [Download, hg, hc, hcopy]
  · intro n cause hg hc hcopy
    constructor
    · intro hne
      simp [DownloadWithProgress, NewDownloadError, hg, hc, hcopy, hne]
    · intro he
      subst he
      simp [DownloadWithProgress, hg, hc, hcopy]

/-- Instance of C8 in a world whose copy breaks after 5 bytes: `Download` reports 0
bytes and `DownloadWithProgress` reports 5, with the same error. -/
theorem download_partial_count_asymmetry_witness :
    Download brokenCopyWorld pkgLinuxAmd64 (ascii "/tmp/go.tar.gz")
        = (0, error.DownloadError pkgLinuxAmd64.URL (error.external 104))
    ∧ DownloadWithProgress brokenCopyWorld pkgLinuxAmd64 (ascii "/tmp/go.tar.gz")
        = (5, error.DownloadError pkgLinuxAmd64.URL (error.external 104)) :=
  ⟨((download_partial_count_asymmetry brokenCopyWorld pkgLinuxAmd64
      (ascii "/tmp/go.tar.gz")).2.2.2.1 5 (error.external 104) rfl rfl rfl).1 (by decide),
   ((download_partial_count_asymmetry brokenCopyWorld pkgLinuxAmd64
      (ascii "/tmp/go.tar.gz")).2.2.2.2 5 (error.external 104) rfl rfl rfl).1 (by decide)⟩

/-! ## Properties of the checksum verification -/

theorem set_ne_self (l : List Nat) (i c : Nat) (hi : i < l.length) (hc : l[i]? ≠ some c) :
    l.set i c ≠ l := by
  intro h
  have h2 : (l.set i c)[i]? = some c := by simp [List.getElem?_set, hi]
  rw [h] at h2
  exact hc h2

/-- C6: for a file that can be opened and read and a package whose `Algorithm` is
`SHA256` (resp. `SHA1`), `VerifyChecksum` returns nil exactly when `pkg.Checksum`
equals the lowercase hex encoding of the SHA-256 (resp. SHA-1) digest of the file
content, and `ErrChecksumNotMatched` otherwise; a correct checksum with one
character replaced by a different one yields `ErrChecksumNotMatched`. -/
theorem VerifyChecksum_exact_digest (w : World) (pkg : Package) (filename : GoString)
    (hopen : (w.osOpen filename).2 = error.nil)
    (hread : (w.ioCopyHash (w.osOpen filename).1).2 = error.nil) :
    (pkg.Algorithm = SHA256 →
      (VerifyChecksum w pkg filename = error.nil ↔
        pkg.Checksum = Sprintf_x (w.sha256 (w.ioCopyHash (w.osOpen filename).1).1))
      ∧ (pkg.Checksum ≠ Sprintf_x (w.sha256 (w.ioCopyHash (w.osOpen filename).1).1) →
          VerifyChecksum w pkg filename = error.ErrChecksumNotMatched)
      ∧ ∀ (i c : Nat),
          i < (Sprintf_x (w.sha256 (w.ioCopyHash (w.osOpen filename).1).1)).length →
          (Sprintf_x (w.sha256 (w.ioCopyHash (w.osOpen filename).1).1))[i]? ≠ some c →
          VerifyChecksum w
            { pkg with Checksum :=
                (Sprintf_x (w.sha256 (w.ioCopyHash (w.osOpen filename).1).1)).set i c }
            filename = error.ErrChecksumNotMatched)
    ∧ (pkg.Algorithm = SHA1 →
      (VerifyChecksum w pkg filename = error.nil ↔
        pkg.Checksum = Sprintf_x (w.sha1 (w.ioCopyHash (w.osOpen filename).1).1))
      ∧ (pkg.Checksum ≠ Sprintf_x (w.sha1 (w.ioCopyHash (w.osOpen filename).1).1) →
          VerifyChecksum w pkg filename = error.ErrChecksumNotMatched)
      ∧ ∀ (i c : Nat),
          i < (Sprintf_x (w.sha1 (w.ioCopyHash (w.osOpen filename).1).1)).length →
          (Sprintf_x (w.sha1 (w.ioCopyHash (w.osOpen filename).1).1))[i]? ≠ some c →
          VerifyChecksum w
            { pkg with Checksum :=
                (Sprintf_x (w.sha1 (w.ioCopyHash (w.osOpen filename).1).1)).set i c }
            filename = error.ErrChecksumNotMatched) := by
  have h1 : SHA1 ≠ SHA256 := by decide
  constructor
  · intro halg
    refine ⟨?_, ?_, ?_⟩
    · by_cases hc : pkg.Checksum = Sprintf_x (w.sha256 (w.ioCopyHash (w.osOpen filename).1).1)
      · simp [VerifyChecksum, hopen, hread, halg, hc]
      · simp [VerifyChecksum, hopen, hread, halg, hc]
    · intro hc
      simp [VerifyChecksum, hopen, hread, halg, hc]
    · intro i c hi hc
      have := set_ne_self _ i c hi hc
      simp [VerifyChecksum, hopen, hread, halg, this]
  · intro halg
    refine ⟨?_, ?_, ?_⟩
    · by_cases hc : pkg.Checksum = Sprintf_x (w.sha1 (w.ioCopyHash (w.osOpen filename).1).1)
      · simp [VerifyChecksum, hopen, hread, halg, h1, hc]
      · simp [VerifyChecksum, hopen, hread, halg, h1, hc]
    · intro hc
      simp [VerifyChecksum, hopen, hread, halg, h1, hc]
    · intro i c hi hc
      have := set_ne_self _ i c hi hc
      simp [VerifyChecksum, hopen, hread, halg, h1, this]

/-- Instance of C6: in `readableWorld` the checksum `d102` verifies, and with its
first character replaced by `e` it does not. -/
theorem VerifyChecksum_exact_digest_witness :
    VerifyChecksum readableWorld goodPackage (ascii "/tmp/go.tar.gz") = error.nil
    ∧ VerifyChecksum readableWorld { goodPackage with Checksum := ascii "e102" }
        (ascii "/tmp/go.tar.gz") = error.ErrChecksumNotMatched :=
  ⟨(((VerifyChecksum_exact_digest readableWorld goodPackage (ascii "/tmp/go.tar.gz")
        rfl rfl).1 rfl).1).mpr (by decide),
   ((VerifyChecksum_exact_digest readableWorld goodPackage (ascii "/tmp/go.tar.gz")
        rfl rfl).1 rfl).2.2 0 0x65 (by decide) (by decide)⟩

/-- C7, as stated, fails where the file cannot be opened: in `brokenCopyWorld`,
where `os.Open` returns an error, `VerifyChecksum` of a package whose `Algorithm`
is `MD5` returns that error and not `ErrUnsupportedChecksumAlgorithm`. -/
theorem VerifyChecksum_unopened_file_counterexample :
    md5Package.Algorithm ≠ SHA256 ∧ md5Package.Algorithm ≠ SHA1
    ∧ VerifyChecksum brokenCopyWorld md5Package (ascii "/tmp/missing") = error.external 2
    ∧ VerifyChecksum brokenCopyWorld md5Package (ascii "/tmp/missing")
        ≠ error.ErrUnsupportedChecksumAlgorithm := by
  decide

/-- C7, amended: for a package whose `Algorithm` is neither `SHA256` nor `SHA1`,
`VerifyChecksum` never returns success; when the file can be opened it returns
`ErrUnsupportedChecksumAlgorithm`, whatever the file holds (it is not read) and
whatever `Checksum` is; when the file cannot be opened it returns the error of
`os.Open`. -/
theorem VerifyChecksum_unsupported_algorithm (w : World) (pkg : Package)
    (filename : GoString) (h256 : pkg.Algorithm ≠ SHA256) (h1 : pkg.Algorithm ≠ SHA1) :
    VerifyChecksum w pkg filename ≠ error.nil
    ∧ ((w.osOpen filename).2 = error.nil →
        ∀ (checksum : GoString) (read : Nat → List Nat × error),
          VerifyChecksum { w with ioCopyHash := read } { pkg with Checksum := checksum } filename
            = error.ErrUnsupportedChecksumAlgorithm)
    ∧ ((w.osOpen filename).2 ≠ error.nil →
        VerifyChecksum w pkg filename = (w.osOpen filename).2) := by
  refine ⟨?_, ?_, ?_⟩
  · by_cases ho : (w.osOpen filename).2 = error.nil
    · simp [VerifyChecksum, ho, h256, h1]
    · simp [VerifyChecksum, ho]
  · intro ho checksum read
    simp [VerifyChecksum, ho, h256, h1]
  · intro ho
    simp [VerifyChecksum, ho]

/-- Instance of amended C7: in `readableWorld`, where the file opens, the `MD5`
package yields `ErrUnsupportedChecksumAlgorithm`. -/
theorem VerifyChecksum_unsupported_algorithm_witness :
    VerifyChecksum readableWorld md5Package (ascii "/tmp/go.tar.gz")
      = error.ErrUnsupportedChecksumAlgorithm :=
  (VerifyChecksum_unsupported_algorithm readableWorld md5Package (ascii "/tmp/go.tar.gz")
    (by decide) (by decide)).2.1 rfl md5Package.Checksum readableWorld.ioCopyHash

/-! ## Case folding of ASCII letters -/

theorem sameLetter_cases (a b : Nat) (h : sameLetter a b = true) :
    a = b ∨ (a < 0x80 ∧ b < 0x80 ∧ a ≠ b ∧
      ((0x41 ≤ a ∧ a ≤ 0x5A ∧ b = a + 0x20) ∨ (0x41 ≤ b ∧ b ≤ 0x5A ∧ a = b + 0x20))) := by
  simp only [sameLetter, Bool.or_eq_true, Bool.and_eq_true, decide_eq_true_eq, beq_iff_eq] at h
  omega

theorem runesFoldEqual_of_sameLetter (orbit : Nat → Nat → Bool) (a b : Nat)
    (h : sameLetter a b = true) (ha : a < 0x80) : runesFoldEqual orbit a b = true := by
  rcases sameLetter_cases a b h with rfl | ⟨_, hb, hne, h2⟩
  · simp [runesFoldEqual]
  · unfold runesFoldEqual RuneSelf
    rw [if_neg (fun h => hne h.symm)]
    rcases h2 with ⟨h1, h2, h3⟩ | ⟨h1, h2, h3⟩
    · have : ¬ b < a := by omega
      simp only [this, if_false, hb, if_true]
      simp [h1, h2, h3]
    · have : b < a := by omega
      simp only [this, if_true, ha]
      simp [h1, h2, h3]

theorem eqUpToCase_length : ∀ (s t : GoString), eqUpToCase s t = true → s.length = t.length
  | [], [], _ => rfl
  | [], _ :: _, h => by simp [eqUpToCase] at h
  | _ :: _, [], h => by simp [eqUpToCase] at h
  | a :: s, b :: t, h => by
    simp only [eqUpToCase, Bool.and_eq_true] at h
    simp [eqUpToCase_length s t h.2]

theorem eqUpToCase_getD : ∀ (s t : GoString), eqUpToCase s t = true →
    ∀ i, sameLetter (s.getD i 0) (t.getD i 0) = true
  | [], [], _, i => by simp [sameLetter]
  | [], _ :: _, h, _ => by simp [eqUpToCase] at h
  | _ :: _, [], h, _ => by simp [eqUpToCase] at h
  | a :: s, b :: t, h, i => by
    simp only [eqUpToCase, Bool.and_eq_true] at h
    cases i with
    | zero => simpa using h.1
    | succ i => simpa using eqUpToCase_getD s t h.2 i

theorem eqUpToCase_drop : ∀ (k : Nat) (s t : GoString), eqUpToCase s t = true →
    eqUpToCase (s.drop k) (t.drop k) = true
  | 0, s, t, h => by simpa using h
  | k + 1, [], [], _ => by simp [eqUpToCase]
  | k + 1, [], _ :: _, h => by simp [eqUpToCase] at h
  | k + 1, _ :: _, [], h => by simp [eqUpToCase] at h
  | k + 1, a :: s, b :: t, h => by
    simp only [eqUpToCase, Bool.and_eq_true] at h
    simpa using eqUpToCase_drop k s t h.2

theorem ite_congr_tail {α : Type} (c : Prop) [Decidable c] (x y z : α) (h : ¬ c → y = z) :
    (if c then x else y) = (if c then x else z) := by
  by_cases hc : c
  · rw [if_pos hc, if_pos hc]
  · rw [if_neg hc, if_neg hc, h hc]

theorem DecodeRuneInString_congr (s t : GoString) (h : eqUpToCase s t = true)
    (hhead : ¬ s.headD 0 < 0x80) :
    DecodeRuneInString s = DecodeRuneInString t := by
  have hlen := eqUpToCase_length s t h
  have h0 := sameLetter_cases _ _ (eqUpToCase_getD s t h 0)
  have h1 := sameLetter_cases _ _ (eqUpToCase_getD s t h 1)
  have h2 := sameLetter_cases _ _ (eqUpToCase_getD s t h 2)
  have h3 := sameLetter_cases _ _ (eqUpToCase_getD s t h 3)
  cases s with
  | nil =>
    cases t with
    | nil => rfl
    | cons b t => simp at hlen
  | cons a s =>
    cases t with
    | nil => simp at hlen
    | cons b t =>
      unfold DecodeRuneInString RuneSelf
      simp only [hlen]
      generalize (a :: s).getD 1 0 = s1 at *
      generalize (a :: s).getD 2 0 = s2 at *
      generalize (a :: s).getD 3 0 = s3 at *
      generalize (b :: t).getD 1 0 = t1 at *
      generalize (b :: t).getD 2 0 = t2 at *
      generalize (b :: t).getD 3 0 = t3 at *
      generalize (b :: t).length = n at *
      simp only [List.getD_cons_zero] at h0
      simp only [List.headD_cons] at hhead
      have hab : a = b := by omega
      subst hab
      have e1 : s1 = t1 ∨ (s1 < 0x80 ∧ t1 < 0x80) := by omega
      have e2 : s2 = t2 ∨ (s2 < 0x80 ∧ t2 < 0x80) := by omega
      have e3 : s3 = t3 ∨ (s3 < 0x80 ∧ t3 < 0x80) := by omega
      have hlo : 0x80 ≤ acceptLo a := by unfold acceptLo; split_ifs <;> omega
      clear h0 h1 h2 h3 h hlen
      simp only [if_neg hhead]
      generalize acceptLo a = lo at *
      generalize acceptHi a = hi at *
      generalize firstSize a = sz at *
      apply ite_congr_tail; intro _
      apply ite_congr_tail; intro _
      rcases e1 with rfl | ⟨e1, e1'⟩
      · apply ite_congr_tail; intro _
        apply ite_congr_tail; intro _
        rcases e2 with rfl | ⟨e2, e2'⟩
        · apply ite_congr_tail; intro _
          apply ite_congr_tail; intro _
          rcases e3 with rfl | ⟨e3, e3'⟩
          · rfl
          · rw [if_pos (Or.inl e3), if_pos (Or.inl e3')]
        · rw [if_pos (Or.inl e2), if_pos (Or.inl e2')]
      · rw [if_pos (Or.inl (Nat.lt_of_lt_of_le e1 hlo)),
          if_pos (Or.inl (Nat.lt_of_lt_of_le e1' hlo))]

theorem ite_snd_pos (c : Prop) [Decidable c] (x y : Nat × Nat) (hx : 1 ≤ x.2)
    (hy : 1 ≤ y.2) : 1 ≤ (if c then x else y).2 := by
  by_cases hc : c
  · rwa [if_pos hc]
  · rwa [if_neg hc]

theorem DecodeRuneInString_size_pos (a : Nat) (s : GoString) :
    1 ≤ (DecodeRuneInString (a :: s)).2 := by
  unfold DecodeRuneInString
  repeat' apply ite_snd_pos
  all_goals first
    | exact Nat.le_refl 1
    | exact (show (1 : Nat) ≤ 2 by decide)
    | exact (show (1 : Nat) ≤ 3 by decide)
    | exact (show (1 : Nat) ≤ 4 by decide)

theorem runesFoldEqual_self (orbit : Nat → Nat → Bool) (r : Nat) :
    runesFoldEqual orbit r r = true := by
  simp [runesFoldEqual]

theorem EqualFoldLoop_of_eqUpToCase (orbit : Nat → Nat → Bool) :
    ∀ (n : Nat) (s t : GoString), s.length ≤ n → eqUpToCase s t = true →
      EqualFoldLoop orbit n s t = true := by
  intro n
  induction n with
  | zero =>
    intro s t hn h
    have hs : s = [] := List.length_eq_zero.mp (Nat.le_zero.mp hn)
    have ht : t = [] := by
      have := eqUpToCase_length s t h
      rw [hs] at this
      exact List.length_eq_zero.mp this.symm
    simp [EqualFoldLoop, hs, ht]
  | succ n ih =>
    intro s t hn h
    cases s with
    | nil =>
      cases t with
      | nil => simp [EqualFoldLoop]
      | cons b t => simp [eqUpToCase] at h
    | cons a s =>
      cases t with
      | nil => simp [eqUpToCase] at h
      | cons b t =>
        have hab : sameLetter a b = true := by
          simp only [eqUpToCase, Bool.and_eq_true] at h
          exact h.1
        have hst : eqUpToCase s t = true := by
          simp only [eqUpToCase, Bool.and_eq_true] at h
          exact h.2
        have hlen : s.length ≤ n := by simpa using hn
        rw [EqualFoldLoop, if_neg (by simp)]
        by_cases ha : a < 0x80
        · have hb : b < 0x80 := by
            rcases sameLetter_cases a b hab with rfl | ⟨_, hb, _⟩
            · exact ha
            · exact hb
          have fa : firstRune (a :: s) = (a, s) := by simp [firstRune, RuneSelf, ha]
          have fb : firstRune (b :: t) = (b, t) := by simp [firstRune, RuneSelf, hb]
          rw [fa, fb]
          simp only [runesFoldEqual_of_sameLetter orbit a b hab ha, if_true]
          exact ih s t hlen hst
        · have hab' : a = b := by
            rcases sameLetter_cases a b hab with rfl | ⟨ha', _⟩
            · rfl
            · exact absurd ha' ha
          subst hab'
          have hd := DecodeRuneInString_congr (a :: s) (a :: t) h (by simpa using ha)
          have fa : firstRune (a :: s)
              = ((DecodeRuneInString (a :: s)).1,
                  (a :: s).drop (DecodeRuneInString (a :: s)).2) := by
            simp [firstRune, RuneSelf, ha]
          have fb : firstRune (a :: t)
              = ((DecodeRuneInString (a :: s)).1,
                  (a :: t).drop (DecodeRuneInString (a :: s)).2) := by
            simp [firstRune, RuneSelf, ha, hd]
          rw [fa, fb]
          simp only [runesFoldEqual_self, if_true]
          apply ih
          · have := DecodeRuneInString_size_pos a s
            simp only [List.length_drop, List.length_cons]
            omega
          · exact eqUpToCase_drop _ _ _ h

theorem EqualFold_of_eqUpToCase (orbit : Nat → Nat → Bool) (s t : GoString)
    (h : eqUpToCase s t = true) : EqualFold orbit s t = true :=
  EqualFoldLoop_of_eqUpToCase orbit s.length s t (Nat.le_refl _) h

/-! ## Prefix matching of file names -/

theorem HasPrefix_iff (s pfx : GoString) : HasPrefix s pfx = true ↔ pfx <+: s := by
  unfold HasPrefix
  rw [Bool.and_eq_true, decide_eq_true_eq, decide_eq_true_eq, List.prefix_iff_eq_take]
  constructor
  · intro h
    exact h.2.symm
  · intro h
    refine ⟨?_, h.symm⟩
    have := congrArg List.length h
    simp only [List.length_take] at this
    omega

theorem HasPrefix_append (pfx x : GoString) : HasPrefix (pfx ++ x) pfx = true :=
  (HasPrefix_iff _ _).mpr (List.prefix_append _ _)

theorem prefix_sep (d : Nat) : ∀ (a b x y : GoString), d ∉ a → d ∉ b →
    a ++ d :: x <+: b ++ d :: y → a = b ∧ x <+: y
  | [], [], x, y, _, _, h => by
    simp only [List.nil_append] at h
    exact ⟨rfl, (List.cons_prefix_cons.mp h).2⟩
  | [], c :: b, x, y, _, hb, h => by
    simp only [List.nil_append, List.cons_append] at h
    have := (List.cons_prefix_cons.mp h).1
    subst this
    exact absurd (List.mem_cons_self _ _) hb
  | c :: a, [], x, y, ha, _, h => by
    simp only [List.nil_append, List.cons_append] at h
    have := (List.cons_prefix_cons.mp h).1
    subst this
    exact absurd (List.mem_cons_self _ _) ha
  | c :: a, c' :: b, x, y, ha, hb, h => by
    simp only [List.cons_append] at h
    obtain ⟨hc, h'⟩ := List.cons_prefix_cons.mp h
    obtain ⟨hab, hxy⟩ := prefix_sep d a b x y
      (fun hm => ha (List.mem_cons_of_mem _ hm)) (fun hm => hb (List.mem_cons_of_mem _ hm)) h'
    exact ⟨by rw [hc, hab], hxy⟩

theorem HasPrefix_query_iff (V os arch ext goos goarch : GoString)
    (hos : 0x2D ∉ os) (hgoos : 0x2D ∉ goos) :
    HasPrefix (Sprintf_go V os arch ++ ascii "." ++ ext) (Sprintf_go V goos goarch) = true
      ↔ goos = os ∧ goarch <+: arch ++ ascii "." ++ ext := by
  rw [HasPrefix_iff]
  have e1 : Sprintf_go V os arch ++ ascii "." ++ ext
      = (ascii "go" ++ V ++ ascii ".") ++ (os ++ 0x2D :: (arch ++ ascii "." ++ ext)) := by
    simp [Sprintf_go, ascii]
  have e2 : Sprintf_go V goos goarch
      = (ascii "go" ++ V ++ ascii ".") ++ (goos ++ 0x2D :: goarch) := by
    simp [Sprintf_go, ascii]
  rw [e1, e2, List.prefix_append_right_inj]
  constructor
  · intro h
    exact prefix_sep 0x2D goos os goarch _ hgoos hos h
  · rintro ⟨rfl, h⟩
    rw [List.prefix_append_right_inj]
    exact List.cons_prefix_cons.mpr ⟨rfl, h⟩

theorem FindPackage_single (orbit : Nat → Nat → Bool) (V kind goos goarch : GoString)
    (p : Package) :
    FindPackage orbit { Name := V, Packages := [some p] } kind goos goarch
      = if (EqualFold orbit p.Kind kind && HasPrefix p.FileName (Sprintf_go V goos goarch))
            = true
        then some (some p, error.nil) else some (none, error.ErrPackageNotFound) := by
  unfold FindPackage
  rw [FindPackageLoop_cons]
  rfl

/-- C3, as stated, fails: the file name is matched by prefix.  The only package of
release 1.21.0 is `go1.21.0.linux-amd64.tar.gz`, and the query `linux`, `amd`
(`amd` differs from `amd64`) returns it.  A package
`go1.21.0.linux-musl-amd64.tar.gz` with os `linux-musl` and arch `amd64` is returned
for the query `linux`, `musl-amd64`, which mismatches both.  In a release that
holds the arm64 and the amd64 archives, the query `linux`, `amd64` mismatches the
arm64 package and returns the amd64 one. -/
theorem FindPackage_mismatch_counterexample :
    (pkgLinuxAmd64.FileName
        = Sprintf_go (ascii "1.21.0") (ascii "linux") (ascii "amd64") ++ ascii "."
            ++ ascii "tar.gz"
      ∧ ascii "amd" ≠ ascii "amd64"
      ∧ FindPackage noOrbit singleVersion ArchiveKind (ascii "linux") (ascii "amd")
          = some (some pkgLinuxAmd64, error.nil))
    ∧ (pkgLinuxMuslAmd64.FileName
        = Sprintf_go (ascii "1.21.0") (ascii "linux-musl") (ascii "amd64") ++ ascii "."
            ++ ascii "tar.gz"
      ∧ ascii "linux" ≠ ascii "linux-musl" ∧ ascii "musl-amd64" ≠ ascii "amd64"
      ∧ FindPackage noOrbit { Name := ascii "1.21.0", Packages := [some pkgLinuxMuslAmd64] }
            ArchiveKind (ascii "linux") (ascii "musl-amd64")
          = some (some pkgLinuxMuslAmd64, error.nil))
    ∧ (pkgLinuxArm64.FileName
        = Sprintf_go (ascii "1.21.0") (ascii "linux") (ascii "arm64") ++ ascii "."
            ++ ascii "tar.gz"
      ∧ some pkgLinuxArm64 ∈ sampleVersion.Packages
      ∧ ascii "amd64" ≠ ascii "arm64"
      ∧ FindPackage noOrbit sampleVersion ArchiveKind (ascii "linux") (ascii "amd64")
          = some (some pkgLinuxAmd64, error.nil)) := by
  decide

/-- C3, amended: for a Version named `V` whose only package has the file name
`"go" + V + "." + os + "-" + arch + "." + ext`, with `os` and the queried `goos`
free of the byte `-`: `FindPackage` returns `(nil, ErrPackageNotFound)` when `goos`
differs from `os`, and when `goarch` is not a prefix of `arch + "." + ext`. -/
theorem FindPackage_mismatch_not_found (orbit : Nat → Nat → Bool)
    (V os arch ext kind goos goarch : GoString) (p : Package)
    (hname : p.FileName = Sprintf_go V os arch ++ ascii "." ++ ext)
    (hos : 0x2D ∉ os) (hgoos : 0x2D ∉ goos)
    (hmis : goos ≠ os ∨ ¬ goarch <+: arch ++ ascii "." ++ ext) :
    FindPackage orbit { Name := V, Packages := [some p] } kind goos goarch
      = some (none, error.ErrPackageNotFound) := by
  rw [FindPackage_single, hname]
  have hp : HasPrefix (Sprintf_go V os arch ++ ascii "." ++ ext) (Sprintf_go V goos goarch)
      = false := by
    rw [Bool.eq_false_iff]
    intro h
    obtain ⟨h1, h2⟩ := (HasPrefix_query_iff V os arch ext goos goarch hos hgoos).mp h
    rcases hmis with hm | hm
    · exact hm h1
    · exact hm h2
  rw [hp, Bool.and_false]
  rfl

/-- Instance of amended C3: the only package of release 1.21.0 is the linux/amd64
archive; the queries `darwin`, `amd64` and `linux`, `arm64` find nothing. -/
theorem FindPackage_mismatch_not_found_witness :
    FindPackage noOrbit singleVersion ArchiveKind (ascii "darwin") (ascii "amd64")
        = some (none, error.ErrPackageNotFound)
    ∧ FindPackage noOrbit singleVersion ArchiveKind (ascii "linux") (ascii "arm64")
        = some (none, error.ErrPackageNotFound) :=
  ⟨FindPackage_mismatch_not_found noOrbit (ascii "1.21.0") (ascii "linux") (ascii "amd64")
      (ascii "tar.gz") ArchiveKind (ascii "darwin") (ascii "amd64") pkgLinuxAmd64
      (by decide) (by decide) (by decide) (Or.inl (by decide)),
   FindPackage_mismatch_not_found noOrbit (ascii "1.21.0") (ascii "linux") (ascii "amd64")
      (ascii "tar.gz") ArchiveKind (ascii "linux") (ascii "arm64") pkgLinuxAmd64
      (by decide) (by decide) (by decide) (Or.inr (by decide))⟩

/-- C4: for a Version named `V` whose only package `p` has the file name
`"go" + V + "." + os + "-" + arch + "." + ext` and the kind `K`, and for every `K'`
equal to `K` up to the case of its letters, `FindPackage(K', os, arch)` returns `p`
with a nil error. -/
theorem FindPackage_kind_case_insensitive (orbit : Nat → Nat → Bool)
    (V os arch ext K K' : GoString) (p : Package)
    (hname : p.FileName = Sprintf_go V os arch ++ ascii "." ++ ext)
    (hkind : p.Kind = K) (hcase : eqUpToCase K K' = true) :
    FindPackage orbit { Name := V, Packages := [some p] } K' os arch
      = some (some p, error.nil) := by
  have hp : HasPrefix (Sprintf_go V os arch ++ ascii "." ++ ext) (Sprintf_go V os arch)
      = true := by
    rw [List.append_assoc]
    exact HasPrefix_append _ _
  rw [FindPackage_single, hname, hkind, EqualFold_of_eqUpToCase orbit K K' hcase, hp]
  rfl

/-- Instance of C4: the package of kind `Archive` is returned for the kinds
`archive` and `ARCHIVE`. -/
theorem FindPackage_kind_case_insensitive_witness :
    FindPackage noOrbit singleVersion (ascii "archive") (ascii "linux") (ascii "amd64")
        = some (some pkgLinuxAmd64, error.nil)
    ∧ FindPackage noOrbit singleVersion (ascii "ARCHIVE") (ascii "linux") (ascii "amd64")
        = some (some pkgLinuxAmd64, error.nil) :=
  ⟨FindPackage_kind_case_insensitive noOrbit (ascii "1.21.0") (ascii "linux") (ascii "amd64")
      (ascii "tar.gz") ArchiveKind (ascii "archive") pkgLinuxAmd64
      (by decide) (by decide) (by decide),
   FindPackage_kind_case_insensitive noOrbit (ascii "1.21.0") (ascii "linux") (ascii "amd64")
      (ascii "tar.gz") ArchiveKind (ascii "ARCHIVE") pkgLinuxAmd64
      (by decide) (by decide) (by decide)⟩

end G
